import Mathlib

/-!
Verification of the watchlist-scan core of `src/main.py` (a trading alert
bot).  The Python functions are shallowly embedded as executable Lean
definitions and the specification's claims about them are settled as
theorems below the definitions.

Modelling conventions, used throughout:

* A Python `float` is modelled as `PFloat := Option ℚ`, with `none`
  standing for the not-a-number sentinel `float("nan")` and `some q` for a
  finite value, taken with exact rational arithmetic (binary rounding and
  infinities of IEEE floats are outside the model).  Python's NaN
  semantics are kept: NaN propagates through arithmetic, every ordered
  comparison against NaN is false, `x == x` fails exactly for NaN, and
  NaN is truthy while `0.0` is falsy.
* A Python function that can raise returns an `Option`/`Except` whose
  `none`/`error` arm is the raised exception; `try`/`except` is a `match`
  on that arm.
* Spreadsheet cells (gspread values) are modelled as `Option String`:
  `none` is a missing key / `None` cell, and a numeric cell stands for the
  string `str()` makes of it, which the same numeric-literal parser covers.
-/

/-- A Python float value: `none` is the `float("nan")` sentinel, `some q` a
finite value with exact rational arithmetic. -/
abbrev PFloat := Option ℚ

/-- Python `x == x`, the script's idiom for "x is not NaN". -/
def isDef (x : PFloat) : Bool := x.isSome

/-- Python truthiness `bool(x)` of a float: false exactly for `0.0`; NaN is
truthy. -/
def truthy : PFloat → Bool
  | none => true
  | some a => decide (a ≠ 0)

/-- Python `x * y` on floats: NaN propagates. -/
def pmul : PFloat → PFloat → PFloat
  | some a, some b => some (a * b)
  | _, _ => none

/-- Python `x - y` on floats: NaN propagates. -/
def psub : PFloat → PFloat → PFloat
  | some a, some b => some (a - b)
  | _, _ => none

/-- Python `x / y` on floats.  The outer `none` models a raised
`ZeroDivisionError` (a zero denominator raises, even `nan / 0.0`); a NaN
denominator or numerator yields NaN without raising. -/
def zdiv (x y : PFloat) : Option PFloat :=
  match y with
  | none => some none
  | some b =>
    if b = 0 then none
    else some (match x with
               | some a => some (a / b)
               | none => none)

/-- Python `x <= y` on floats: false whenever either side is NaN. -/
def pleB : PFloat → PFloat → Bool
  | some a, some b => decide (a ≤ b)
  | _, _ => false

/-- Python `x >= y` on floats: false whenever either side is NaN. -/
def pgeB : PFloat → PFloat → Bool
  | some a, some b => decide (b ≤ a)
  | _, _ => false

/-- Python `x > y` on floats: false whenever either side is NaN. -/
def pgtB : PFloat → PFloat → Bool
  | some a, some b => decide (b < a)
  | _, _ => false

/-- The conditional expression `(num / den * 100.0) if den else float("nan")`
shared by `calc_pl` and `check_floor_breach` in `src/main.py`.  The outer
`Option` arm `none` would be an uncaught `ZeroDivisionError`; the truthiness
guard on the denominator makes that arm unreachable (`pctExpr_isSome`). -/
def pctExpr (num den : PFloat) : Option PFloat :=
  if truthy den then (zdiv num den).map (fun d => pmul d (some 100))
  else some none

/-- The record returned by `calc_pl` (`src/main.py:130-137`). -/
structure PL where
  invested : PFloat
  current_value : PFloat
  pl_abs : PFloat
  pl_pct : PFloat
deriving DecidableEq

/-- Shallow embedding of `calc_pl` (`src/main.py:130-137`): guard on
`shares == shares and entry == entry and price == price`, then
`invested = shares*entry`, `current_value = shares*price`,
`pl_abs = current_value - invested`, and
`pl_pct = (pl_abs / invested * 100.0) if invested else float("nan")`.
The outer `Option` arm `none` would be a raised `ZeroDivisionError`. -/
def calc_pl (shares entry price : PFloat) : Option PL :=
  if isDef shares && isDef entry && isDef price then
    let invested := pmul shares entry
    let current_value := pmul shares price
    let pl_abs := psub current_value invested
    (pctExpr pl_abs invested).map fun pl_pct =>
      ⟨invested, current_value, pl_abs, pl_pct⟩
  else some ⟨none, none, none, none⟩

/-- Shallow embedding of `check_floor_breach` (`src/main.py:144-152`),
returning `some reason` (`""` for no breach); the `Option` arm `none` would
be a raised `ZeroDivisionError` inside the loss-percent expression. -/
def check_floor_breach (invested current_value floor_value floor_threshold_pct : PFloat) :
    Option String :=
  if isDef invested && isDef current_value then
    if isDef floor_value && pleB current_value floor_value then
      some "floor_value"
    else
      if isDef floor_threshold_pct && pgtB floor_threshold_pct (some 0) then
        match pctExpr (psub invested current_value) invested with
        | none => none
        | some loss_pct =>
          if isDef loss_pct && pgeB loss_pct floor_threshold_pct then some "threshold_pct"
          else some ""
      else some ""
  else some ""

/-- The configured surge tiers `MIN_SURGE_TIERS` (`src/main.py:20`). -/
def MIN_SURGE_TIERS : List ℚ := [15, 20, 30]

/-- Shallow embedding of `should_alert_surges` (`src/main.py:139-142`):
`[]` for a NaN change, else `[t for t in sorted(tiers) if abs(change_pct) >= t]`
(Python's `sorted` is a stable ascending sort, modelled by `mergeSort`). -/
def should_alert_surges (change_pct : PFloat) (tiers : List ℚ) : List ℚ :=
  match change_pct with
  | none => []
  | some c => (tiers.mergeSort fun a b => decide (a ≤ b)).filter fun t => decide (|c| ≥ t)

/-- The dictionary returned by `fetch_quote` (`src/main.py:118-128`); the
`error` field is `some msg` on the except path. -/
structure Quote where
  ticker : String
  price : PFloat
  prev_close : PFloat
  change_pct_1d : PFloat
  error : Option String
deriving DecidableEq

/-- Shallow embedding of `fetch_quote` (`src/main.py:118-128`) with the
Finnhub call abstracted into its observed outcome: `Except.ok (c, pc)` is a
response whose `"c"`/`"pc"` fields (defaulted to NaN when absent) are the
two floats, `Except.error e` a provider exception with message `e`.  The
change percent is
`((price - prev_close) / prev_close * 100.0) if prev_close and prev_close == prev_close else float("nan")`;
a `ZeroDivisionError` from it would be caught by the surrounding
`except Exception` and produce the error dictionary (that arm is
unreachable, since the guard rules out a zero denominator). -/
def fetch_quote (ticker : String) (resp : Except String (PFloat × PFloat)) : Quote :=
  match resp with
  | Except.error e =>
    { ticker := ticker, price := none, prev_close := none, change_pct_1d := none,
      error := some e }
  | Except.ok (price, prev_close) =>
    match (if truthy prev_close && isDef prev_close then
             (zdiv (psub price prev_close) prev_close).map (fun d => pmul d (some 100))
           else some none) with
    | some change_pct =>
      { ticker := ticker, price := price, prev_close := prev_close,
        change_pct_1d := change_pct, error := none }
    | none =>
      { ticker := ticker, price := none, prev_close := none, change_pct_1d := none,
        error := some "float division by zero" }

/-- The numeric value of a big-endian digit-character list, the way a
positional parser accumulates it: `foldl (10*acc + digit)`. -/
def ofDigitsBE (l : List Char) : ℕ :=
  l.foldl (fun acc c => 10 * acc + (c.toNat - 48)) 0

/-- Model of Python `float(s)` on the decimal-literal subset the repository
ever feeds it: an optional sign, then digits with an optional fractional
part (`"12"`, `"12."`, `".5"`, `"-0.07"`, `"+3.10"`).  Anything else —
including the `%`-suffixed strings `format_pct` produces — is rejected
(`none`), modelling the `ValueError` that `float` raises.  Exponents,
`inf`/`nan` spellings and digit underscores are outside the subset and also
rejected; no caller produces them. -/
def parseUnsigned (l : List Char) : Option ℚ :=
  let intDs := l.takeWhile Char.isDigit
  let rest := l.dropWhile Char.isDigit
  match rest with
  | [] => if intDs.isEmpty then none else some (ofDigitsBE intDs)
  | '.' :: fracDs =>
    if fracDs.all Char.isDigit && !(intDs.isEmpty && fracDs.isEmpty) then
      some ((ofDigitsBE intDs : ℚ) + (ofDigitsBE fracDs : ℚ) / 10 ^ fracDs.length)
    else none
  | _ => none

/-- Sign handling of the `float(s)` model: see `parseUnsigned`. -/
def parseFloat (l : List Char) : Option ℚ :=
  if l.head? = some '-' then (parseUnsigned l.tail).map (fun q => -q)
  else if l.head? = some '+' then parseUnsigned l.tail
  else parseUnsigned l

/-- Python `str.strip()` on a character list (both ends; Lean's
`Char.isWhitespace` stands for Python's whitespace class). -/
def pyStripList (l : List Char) : List Char :=
  (((l.dropWhile Char.isWhitespace).reverse).dropWhile Char.isWhitespace).reverse

/-- Python `str.strip()`. -/
def pyStrip (s : String) : String := ⟨pyStripList s.data⟩

/-- Python `str.upper()` (ASCII letters, which is all the sheet model needs). -/
def pyUpper (s : String) : String := ⟨s.data.map Char.toUpper⟩

/-- Python `s.replace(",", "")`. -/
def stripCommas (s : String) : String := ⟨s.data.filter fun c => !(c == ',')⟩

/-- Shallow embedding of `safe_float` (`src/main.py:73-79`):
`None`/`""` become NaN, otherwise `float(str(x).replace(",", "").strip())`
with any `ValueError` caught into NaN. -/
def safe_float (x : Option String) : PFloat :=
  match x with
  | none => none
  | some s =>
    if s = "" then none
    else parseFloat (pyStripList (stripCommas s).data)

/-- The integer the `"%.2f"` family displays: the value scaled to
hundredths and rounded to the nearest integer.  Mathlib's `round` rounds
half-integers up; Python resolves the (binary-exact) ties to even digits
instead, a difference only visible at exact half-hundredths, which the
rational model does not try to reproduce. -/
def rnd2 (q : ℚ) : ℤ := round (100 * q)

/-- Big-endian decimal digit characters of a natural number (`"0"` for 0),
as Python renders the integer part of a fixed-point number. -/
def natStr (m : ℕ) : List Char :=
  if m = 0 then ['0'] else (Nat.digits 10 m).reverse.map Nat.digitChar

/-- The exactly-two-digit fractional field of `"%.2f"`. -/
def twoDigitStr (f : ℕ) : List Char :=
  [Nat.digitChar (f / 10), Nat.digitChar (f % 10)]

/-- Thousands grouping on a reversed digit list: a comma before every
fourth, seventh, … digit from the right. -/
def commaGroupAux : ℕ → List Char → List Char
  | _, [] => []
  | 0, c :: cs => ',' :: c :: commaGroupAux 2 cs
  | k + 1, c :: cs => c :: commaGroupAux k cs

/-- Python's `","` format-spec grouping of an integer-part digit string. -/
def commaGroup (ds : List Char) : List Char :=
  (commaGroupAux 3 ds.reverse).reverse

/-- The characters of Python `f"{q:.2f}"`: sign of the value, then the
rounded magnitude `n` hundredths as `n/100 "." n%100` (Python renders a
negative value that rounds to zero as `-0.00`, hence the sign is the
value's, not the rounded integer's). -/
def fixed2Chars (q : ℚ) : List Char :=
  (if q < 0 then ['-'] else []) ++
    natStr ((rnd2 q).natAbs / 100) ++ '.' :: twoDigitStr ((rnd2 q).natAbs % 100)

/-- The characters of Python `f"{q:,.2f}"`: as `fixed2Chars` with the
integer part comma-grouped. -/
def moneyChars (q : ℚ) : List Char :=
  (if q < 0 then ['-'] else []) ++
    commaGroup (natStr ((rnd2 q).natAbs / 100)) ++ '.' :: twoDigitStr ((rnd2 q).natAbs % 100)

/-- Shallow embedding of `format_money` (`src/main.py:101-104`): the
em-dash placeholder for NaN, else `f"{x:,.2f}"`. -/
def format_money (x : PFloat) : String :=
  match x with
  | none => "—"
  | some q => ⟨moneyChars q⟩

/-- Shallow embedding of `format_pct` (`src/main.py:106-110`): the em-dash
placeholder for NaN, else `f"{sign}{x:.2f}%"` with `sign = "+" if x >= 0
else ""`. -/
def format_pct (x : PFloat) : String :=
  match x with
  | none => "—"
  | some q => ⟨(if 0 ≤ q then ['+'] else []) ++ fixed2Chars q ++ ['%']⟩

/-- One spreadsheet row as `ws.get_all_records()` hands it to
`load_watchlist`: each cell an optional string (see the file comment). -/
structure Row where
  Ticker : Option String
  Shares : Option String
  Entry : Option String
  FloorValue : Option String
  FloorThresholdPct : Option String
  Note : Option String
deriving DecidableEq

/-- One entry of the list `load_watchlist` builds (`src/main.py:91-98`). -/
structure Position where
  Ticker : String
  Shares : PFloat
  Entry : PFloat
  FloorValue : PFloat
  FloorThresholdPct : PFloat
  Note : String
deriving DecidableEq

/-- The ticker cleanup `str(row.get("Ticker", "")).strip().upper()`
(`src/main.py:88`). -/
def cleanTicker (row : Row) : String := pyUpper (pyStrip (row.Ticker.getD ""))

/-- The dictionary appended per kept row (`src/main.py:91-98`). -/
def mkPosition (row : Row) : Position :=
  { Ticker := cleanTicker row
    Shares := safe_float row.Shares
    Entry := safe_float row.Entry
    FloorValue := safe_float row.FloorValue
    FloorThresholdPct := safe_float row.FloorThresholdPct
    Note := row.Note.getD "" }

/-- The row loop of `load_watchlist` (`src/main.py:86-99`): rows whose
cleaned ticker is empty are skipped (`if not ticker: continue`). -/
def loadRows : List Row → List Position
  | [] => []
  | row :: rest =>
    if cleanTicker row = "" then loadRows rest
    else mkPosition row :: loadRows rest

/-- Shallow embedding of `load_watchlist` (`src/main.py:81-99`) with the
sheet read abstracted into its outcome: `none` models
`ws.get_all_records()` raising (the `except` path returns `[]`), `some
records` a successful read. -/
def load_watchlist (fetch : Option (List Row)) : List Position :=
  match fetch with
  | none => []
  | some records => loadRows records

lemma pctExpr_isSome (num den : PFloat) : (pctExpr num den).isSome = true := by
  cases den with
  | none => simp [pctExpr, truthy, zdiv]
  | some b =>
    by_cases hb : b = 0
    · simp [pctExpr, truthy, hb]
    · simp [pctExpr, truthy, zdiv, hb]

lemma pctExpr_zero (num : PFloat) : pctExpr num (some 0) = some none := by
  simp [pctExpr, truthy]

lemma pctExpr_nonzero (x a : ℚ) (ha : a ≠ 0) :
    pctExpr (some x) (some a) = some (some (x / a * 100)) := by
  simp [pctExpr, truthy, zdiv, pmul, ha]

lemma calc_pl_undef (s e p : PFloat) (h : s = none ∨ e = none ∨ p = none) :
    calc_pl s e p = some ⟨none, none, none, none⟩ := by
  rcases h with h | h | h <;> subst h <;> simp [calc_pl, isDef]

lemma calc_pl_shape (s e p : PFloat) (pl : PL) (h : calc_pl s e p = some pl) :
    pl = ⟨none, none, none, none⟩ ∨
    ∃ a b c, s = some a ∧ e = some b ∧ p = some c ∧
      pl.invested = some (a * b) ∧ pl.current_value = some (a * c) := by
  cases s with
  | none => simp [calc_pl_undef _ _ _ (Or.inl rfl)] at h; exact Or.inl h.symm
  | some a =>
    cases e with
    | none => simp [calc_pl_undef _ _ _ (Or.inr (Or.inl rfl))] at h; exact Or.inl h.symm
    | some b =>
      cases p with
      | none => simp [calc_pl_undef _ _ _ (Or.inr (Or.inr rfl))] at h; exact Or.inl h.symm
      | some c =>
        refine Or.inr ⟨a, b, c, rfl, rfl, rfl, ?_⟩
        simp only [calc_pl, isDef, Option.isSome_some, Bool.and_self, if_true] at h
        rcases Option.map_eq_some'.mp h with ⟨lp, hlp, hpl⟩
        subst hpl
        simp [pmul]

/-- C9: when `invested` or `current_value` is the NaN sentinel,
`check_floor_breach` reports no breach (the empty reason), whatever the
floor configuration. -/
theorem check_floor_breach_nan_silent (inv cur fv tp : PFloat)
    (h : inv = none ∨ cur = none) :
    check_floor_breach inv cur fv tp = some "" := by
  rcases h with h | h <;> subst h <;> simp [check_floor_breach, isDef]

theorem check_floor_breach_nan_silent_witness :
    check_floor_breach none (some 5) (some 1) (some 2) = some "" :=
  check_floor_breach_nan_silent none (some 5) (some 1) (some 2) (Or.inl rfl)

/-- C4: `calc_pl` never raises (its `ZeroDivisionError` arm is unreachable:
the division is guarded by the truthiness of `invested`), and whenever the
invested amount is zero or NaN the percent P/L is the NaN sentinel. -/
theorem calc_pl_no_raise_nan_pct (s e p : PFloat) :
    (calc_pl s e p).isSome = true ∧
    ∀ pl, calc_pl s e p = some pl →
      (pl.invested = some 0 ∨ pl.invested = none) → pl.pl_pct = none := by
  constructor
  · unfold calc_pl
    split
    · simpa using pctExpr_isSome _ _
    · simp
  · intro pl h hinv
    cases s with
    | none => rw [calc_pl_undef _ _ _ (Or.inl rfl)] at h; cases h; rfl
    | some a =>
      cases e with
      | none => rw [calc_pl_undef _ _ _ (Or.inr (Or.inl rfl))] at h; cases h; rfl
      | some b =>
        cases p with
        | none => rw [calc_pl_undef _ _ _ (Or.inr (Or.inr rfl))] at h; cases h; rfl
        | some c =>
          simp only [calc_pl, isDef, Option.isSome_some, Bool.and_self, if_true] at h
          rcases Option.map_eq_some'.mp h with ⟨lp, hlp, hpl⟩
          subst hpl
          simp only [pmul] at hinv hlp ⊢
          rcases hinv with hinv | hinv
          · rw [Option.some_inj.mp hinv, pctExpr_zero] at hlp
            simpa using hlp.symm
          · cases hinv

theorem calc_pl_no_raise_nan_pct_witness :
    calc_pl (some 0) (some 5) (some 7) = some ⟨some 0, some 0, some 0, none⟩ ∧
    (⟨some 0, some 0, some 0, none⟩ : PL).pl_pct = none := by
  have h : calc_pl (some 0) (some 5) (some 7) = some ⟨some 0, some 0, some 0, none⟩ := by
    with_unfolding_all rfl
  exact ⟨h, (calc_pl_no_raise_nan_pct (some 0) (some 5) (some 7)).2 _ h (Or.inl rfl)⟩

/-- C1: at every call of `check_floor_breach` (the one call site passes the
outputs of `calc_pl`, `src/main.py:191`), if a floor value is configured
(non-NaN) and the Python comparison `current_value <= floor_value` holds,
the reported reason is `"floor_value"`, whatever the threshold-percent
configuration `tp`. -/
theorem check_floor_breach_floor_value (s e p fv tp : PFloat) (pl : PL)
    (hpl : calc_pl s e p = some pl)
    (hfv : isDef fv = true)
    (hle : pleB pl.current_value fv = true) :
    check_floor_breach pl.invested pl.current_value fv tp = some "floor_value" := by
  rcases calc_pl_shape s e p pl hpl with h | ⟨a, b, c, _, _, _, hinv, hcur⟩
  · rw [h] at hle; cases hle
  · rcases Option.isSome_iff_exists.mp hfv with ⟨v, hv⟩
    subst hv
    rw [hcur] at hle
    rw [hinv, hcur]
    simp [check_floor_breach, isDef, hle]

theorem check_floor_breach_floor_value_witness :
    check_floor_breach (some 1000) (some 80) (some 100) none = some "floor_value" := by
  have h : calc_pl (some 10) (some 100) (some 8) =
      some ⟨some 1000, some 80, some (-920), some (-92)⟩ := by
    with_unfolding_all rfl
  exact check_floor_breach_floor_value (some 10) (some 100) (some 8) (some 100) none
    ⟨some 1000, some 80, some (-920), some (-92)⟩ h rfl (by decide)

/-- C2: `check_floor_breach` reports `"threshold_pct"` only when the
floor-value rule did not fire (so `"floor_value"` takes precedence and at
most one reason comes back per call), the configured threshold is a
defined positive number, and the loss percent `(invested - current) /
invested * 100` is at least that threshold (in particular both amounts are
defined and `invested` is nonzero, so the loss percent is a real number). -/
theorem check_floor_breach_threshold_only (inv cur fv tp : PFloat)
    (h : check_floor_breach inv cur fv tp = some "threshold_pct") :
    ¬(isDef fv = true ∧ pleB cur fv = true) ∧
    ∃ t a b, tp = some t ∧ 0 < t ∧ inv = some a ∧ cur = some b ∧ a ≠ 0 ∧
      t ≤ (a - b) / a * 100 := by
  cases inv with
  | none => simp [check_floor_breach, isDef] at h
  | some a =>
  cases cur with
  | none => simp [check_floor_breach, isDef] at h
  | some b =>
  by_cases hf : isDef fv = true ∧ pleB (some b) fv = true
  · exfalso
    rcases Option.isSome_iff_exists.mp hf.1 with ⟨v, hv⟩
    subst hv
    have hbv : pleB (some b) (some v) = true := hf.2
    simp [check_floor_breach, isDef, hbv] at h
  · refine ⟨hf, ?_⟩
    have hfb : ¬(Option.isSome fv = true ∧ pleB (some b) fv = true) := by
      simpa [isDef] using hf
    cases tp with
    | none => exfalso; simp [check_floor_breach, isDef, hfb] at h
    | some t =>
    by_cases ht : 0 < t
    · by_cases ha : a = 0
      · exfalso
        subst ha
        simp [check_floor_breach, isDef, hfb, pgtB, ht, pctExpr_zero] at h
      · simp [check_floor_breach, isDef, hfb, pgtB, ht, psub,
          pctExpr_nonzero (a - b) a ha, pgeB] at h
        by_cases hge : t ≤ (a - b) / a * 100
        · exact ⟨t, a, b, rfl, ht, rfl, rfl, ha, hge⟩
        · exact absurd h (by simp [hge])
    · exfalso
      simp [check_floor_breach, isDef, hfb, pgtB, ht] at h

theorem check_floor_breach_threshold_only_witness :
    check_floor_breach (some 1000) (some 800) none (some 15) = some "threshold_pct" ∧
    ¬(isDef none = true ∧ pleB (some 800) none = true) ∧
    ∃ t a b, (some (15 : ℚ) : PFloat) = some t ∧ 0 < t ∧
      (some (1000 : ℚ) : PFloat) = some a ∧ (some (800 : ℚ) : PFloat) = some b ∧ a ≠ 0 ∧
      t ≤ (a - b) / a * 100 := by
  have h : check_floor_breach (some 1000) (some 800) none (some 15) = some "threshold_pct" := by
    with_unfolding_all rfl
  exact ⟨h, check_floor_breach_threshold_only (some 1000) (some 800) none (some 15) h⟩

/-- C3: for a defined one-day change `c`, the alerted surge tiers are
exactly the configured tiers whose value is at most `|c|` (a permutation of
that sublist, each occurrence kept), listed in ascending order. -/
theorem should_alert_surges_spec (c : ℚ) (tiers : List ℚ) :
    List.Sorted (· ≤ ·) (should_alert_surges (some c) tiers) ∧
    (should_alert_surges (some c) tiers).Perm (tiers.filter fun t => decide (t ≤ |c|)) := by
  constructor
  · have hs : List.Pairwise (fun a b : ℚ => (decide (a ≤ b)) = true)
        (tiers.mergeSort fun a b => decide (a ≤ b)) :=
      List.sorted_mergeSort (by intro x y z hxy hyz; simp at hxy hyz ⊢; exact hxy.trans hyz)
        (by intro x y; simpa using le_total x y) tiers
    exact ((hs.imp (by intro x y hxy; simpa using hxy)).filter _)
  · exact (List.mergeSort_perm tiers _).filter _

/-- C5: every quote built by `fetch_quote` has, when its previous close is
defined and nonzero, the one-day change `(price - prev_close) / prev_close
* 100` (NaN when the price itself is NaN), and the NaN sentinel otherwise
(previous close NaN — including every provider-error quote — or zero). -/
theorem fetch_quote_change_pct (t : String) (resp : Except String (PFloat × PFloat)) :
    (∀ a b, (fetch_quote t resp).price = some a → (fetch_quote t resp).prev_close = some b →
      b ≠ 0 → (fetch_quote t resp).change_pct_1d = some ((a - b) / b * 100)) ∧
    (∀ b, (fetch_quote t resp).prev_close = some b → b ≠ 0 →
      (fetch_quote t resp).price = none → (fetch_quote t resp).change_pct_1d = none) ∧
    ((fetch_quote t resp).prev_close = none ∨ (fetch_quote t resp).prev_close = some 0 →
      (fetch_quote t resp).change_pct_1d = none) := by
  match resp with
  | Except.error e => exact ⟨by simp [fetch_quote], by simp [fetch_quote], by simp [fetch_quote]⟩
  | Except.ok (p, pc) =>
    cases pc with
    | none => exact ⟨by simp [fetch_quote, truthy, isDef], by simp [fetch_quote, truthy, isDef],
        by simp [fetch_quote, truthy, isDef]⟩
    | some b =>
      by_cases hb : b = 0
      · subst hb
        exact ⟨by simp [fetch_quote, truthy, isDef], by simp [fetch_quote, truthy, isDef],
          by simp [fetch_quote, truthy, isDef]⟩
      · cases p with
        | none =>
          refine ⟨by simp [fetch_quote, truthy, isDef, zdiv, psub, hb], ?_, ?_⟩ <;>
            simp [fetch_quote, truthy, isDef, zdiv, psub, pmul, hb]
        | some a =>
          refine ⟨?_, by simp [fetch_quote, truthy, isDef, zdiv, psub, pmul, hb], ?_⟩ <;>
            simp [fetch_quote, truthy, isDef, zdiv, psub, pmul, hb]

/-- C8: when the sheet read raises, `load_watchlist` returns the empty
list instead of propagating the error, so a scan cycle sees no positions. -/
theorem load_watchlist_read_error : load_watchlist none = [] := rfl

lemma loadRows_eq_filter_map (rows : List Row) :
    loadRows rows = (rows.filter fun r => !(cleanTicker r == "")).map mkPosition := by
  induction rows with
  | nil => rfl
  | cons r rest ih =>
    by_cases hr : cleanTicker r = ""
    · simp [loadRows, hr, ih]
    · simp [loadRows, hr, ih]

/-- C10: `load_watchlist` keeps exactly the rows whose ticker is nonempty
after stripping and uppercasing (in order), and every returned position
carries that cleaned, nonempty ticker. -/
theorem load_watchlist_ticker_clean (rows : List Row) :
    load_watchlist (some rows) = (rows.filter fun r => !(cleanTicker r == "")).map mkPosition ∧
    ∀ p ∈ load_watchlist (some rows), p.Ticker ≠ "" ∧
      ∃ r ∈ rows, p.Ticker = pyUpper (pyStrip (r.Ticker.getD "")) := by
  have he : load_watchlist (some rows) =
      (rows.filter fun r => !(cleanTicker r == "")).map mkPosition :=
    loadRows_eq_filter_map rows
  refine ⟨he, ?_⟩
  intro p hp
  rw [he] at hp
  rcases List.mem_map.mp hp with ⟨r, hrf, hpr⟩
  rcases List.mem_filter.mp hrf with ⟨hrmem, hcond⟩
  have hne : cleanTicker r ≠ "" := by simpa using hcond
  subst hpr
  exact ⟨hne, r, hrmem, rfl⟩

/-- C7: missing (`None`/empty) and unparseable cells become the NaN
sentinel without raising (`safe_float` is total); `calc_pl` propagates the
sentinel from any of its three inputs into all four outputs; and both
formatters render the sentinel as the em-dash placeholder. -/
theorem nan_sentinel_pipeline :
    safe_float none = none ∧ safe_float (some "") = none ∧
    safe_float (some "n/a") = none ∧ safe_float (some "—") = none ∧
    (∀ s e p : PFloat, (s = none ∨ e = none ∨ p = none) →
      calc_pl s e p = some ⟨none, none, none, none⟩) ∧
    format_money none = "—" ∧ format_pct none = "—" :=
  ⟨rfl, by decide, by decide, by decide, calc_pl_undef, rfl, rfl⟩

lemma digitChar_facts {d : ℕ} (h : d < 10) :
    (Nat.digitChar d).isDigit = true ∧ ((Nat.digitChar d) == ',') = false ∧
    (Nat.digitChar d).isWhitespace = false ∧ (Nat.digitChar d).toNat - 48 = d := by
  interval_cases d <;> exact ⟨rfl, rfl, rfl, rfl⟩

lemma natStr_mem {m : ℕ} {c : Char} (hc : c ∈ natStr m) :
    ∃ d, d < 10 ∧ c = Nat.digitChar d := by
  unfold natStr at hc
  split at hc
  · simp at hc
    exact ⟨0, by norm_num, hc⟩
  · rcases List.mem_map.mp hc with ⟨d, hd, hcd⟩
    exact ⟨d, Nat.digits_lt_base (by norm_num) (List.mem_reverse.mp hd), hcd.symm⟩

lemma twoDigitStr_mem {f : ℕ} (hf : f < 100) {c : Char} (hc : c ∈ twoDigitStr f) :
    ∃ d, d < 10 ∧ c = Nat.digitChar d := by
  simp only [twoDigitStr, List.mem_cons, List.not_mem_nil, or_false] at hc
  rcases hc with hc | hc
  · exact ⟨f / 10, Nat.div_lt_of_lt_mul (by omega), hc⟩
  · exact ⟨f % 10, Nat.mod_lt _ (by norm_num), hc⟩

lemma dropWhile_all_false {p : Char → Bool} {l : List Char} (h : ∀ c ∈ l, p c = false) :
    l.dropWhile p = l := by
  cases l with
  | nil => rfl
  | cons c cs =>
    rw [List.dropWhile_cons, h c (List.mem_cons_self c cs)]
    simp

lemma pyStripList_all_false {l : List Char} (h : ∀ c ∈ l, c.isWhitespace = false) :
    pyStripList l = l := by
  unfold pyStripList
  rw [dropWhile_all_false h,
    dropWhile_all_false (fun c hc => h c (List.mem_reverse.mp hc)), List.reverse_reverse]

lemma takeWhile_append_not {p : Char → Bool} {l₁ : List Char} {c : Char} {l₂ : List Char}
    (h1 : ∀ x ∈ l₁, p x = true) (h2 : p c = false) :
    (l₁ ++ c :: l₂).takeWhile p = l₁ := by
  induction l₁ with
  | nil => simp [List.takeWhile_cons, h2]
  | cons x xs ih =>
    rw [List.cons_append, List.takeWhile_cons, h1 x (List.mem_cons_self x xs)]
    simp only [if_true]
    rw [ih (fun y hy => h1 y (List.mem_cons_of_mem x hy))]

lemma dropWhile_append_not {p : Char → Bool} {l₁ : List Char} {c : Char} {l₂ : List Char}
    (h1 : ∀ x ∈ l₁, p x = true) (h2 : p c = false) :
    (l₁ ++ c :: l₂).dropWhile p = c :: l₂ := by
  induction l₁ with
  | nil => simp [List.dropWhile_cons, h2]
  | cons x xs ih =>
    rw [List.cons_append, List.dropWhile_cons, h1 x (List.mem_cons_self x xs)]
    simp only [if_true]
    exact ih (fun y hy => h1 y (List.mem_cons_of_mem x hy))

lemma foldl_mul_add (ds : List ℕ) (a : ℕ) :
    ds.foldl (fun acc d => 10 * acc + d) a = Nat.ofDigits 10 ds.reverse + a * 10 ^ ds.length := by
  induction ds generalizing a with
  | nil => simp [Nat.ofDigits]
  | cons d t ih =>
    simp only [List.foldl_cons, ih, List.reverse_cons, Nat.ofDigits_append, List.length_cons]
    simp [Nat.ofDigits]
    ring

lemma foldl_congr_mem {α β : Type} {l : List α} {f g : β → α → β}
    (h : ∀ a : β, ∀ d ∈ l, f a d = g a d) : ∀ a, l.foldl f a = l.foldl g a := by
  induction l with
  | nil => intro a; rfl
  | cons d t ih =>
    intro a
    simp only [List.foldl_cons]
    rw [h a d (List.mem_cons_self d t)]
    exact ih (fun a d hd => h a d (List.mem_cons_of_mem _ hd)) _

lemma ofDigitsBE_natStr (m : ℕ) : ofDigitsBE (natStr m) = m := by
  by_cases hm : m = 0
  · subst hm; rfl
  · unfold ofDigitsBE natStr
    rw [if_neg hm, List.foldl_map]
    have hcongr := foldl_congr_mem
      (l := (Nat.digits 10 m).reverse)
      (f := fun acc d => 10 * acc + ((Nat.digitChar d).toNat - 48))
      (g := fun acc d => 10 * acc + d)
      (fun a d hd => by
        simp only []
        rw [(digitChar_facts (Nat.digits_lt_base (by norm_num) (List.mem_reverse.mp hd))).2.2.2])
    rw [hcongr 0, foldl_mul_add]
    simp [Nat.ofDigits_digits]

lemma ofDigitsBE_twoDigit {f : ℕ} (hf : f < 100) : ofDigitsBE (twoDigitStr f) = f := by
  unfold twoDigitStr ofDigitsBE
  simp only [List.foldl_cons, List.foldl_nil]
  rw [(digitChar_facts (show f / 10 < 10 from Nat.div_lt_of_lt_mul (by omega))).2.2.2,
    (digitChar_facts (show f % 10 < 10 from Nat.mod_lt _ (by norm_num))).2.2.2]
  omega

lemma natStr_ne_nil (m : ℕ) : natStr m ≠ [] := by
  unfold natStr
  split
  · simp
  · simp [Nat.digits_ne_nil_iff_ne_zero.mpr ‹¬m = 0›]

lemma natStr_all_digit (m : ℕ) : ∀ c ∈ natStr m, c.isDigit = true := by
  intro c hc
  rcases natStr_mem hc with ⟨d, hd, rfl⟩
  exact (digitChar_facts hd).1

lemma parseUnsigned_render (m f : ℕ) (hf : f < 100) :
    parseUnsigned (natStr m ++ '.' :: twoDigitStr f) = some ((m : ℚ) + (f : ℚ) / 100) := by
  unfold parseUnsigned
  rw [takeWhile_append_not (natStr_all_digit m) (by decide),
    dropWhile_append_not (natStr_all_digit m) (by decide)]
  have hfd : (twoDigitStr f).all Char.isDigit = true := by
    rw [List.all_eq_true]
    intro c hc
    rcases twoDigitStr_mem hf hc with ⟨d, hd, rfl⟩
    exact (digitChar_facts hd).1
  simp only [hfd, List.isEmpty_iff, natStr_ne_nil m, Bool.true_and]
  rw [if_pos (by simp [natStr_ne_nil m])]
  rw [ofDigitsBE_natStr, ofDigitsBE_twoDigit hf]
  norm_num [twoDigitStr]

lemma parseUnsigned_pct_tail (m f : ℕ) :
    parseUnsigned (natStr m ++ '.' :: (twoDigitStr f ++ ['%'])) = none := by
  unfold parseUnsigned
  rw [takeWhile_append_not (natStr_all_digit m) (by decide),
    dropWhile_append_not (natStr_all_digit m) (by decide)]
  have hfd : ((twoDigitStr f ++ ['%']).all Char.isDigit) = false := by
    simp [List.all_append]
  simp [hfd]

lemma filter_commaGroupAux (k : ℕ) (l : List Char) (h : ∀ c ∈ l, (c == ',') = false) :
    (commaGroupAux k l).filter (fun c => !(c == ',')) = l := by
  induction l generalizing k with
  | nil => cases k <;> rfl
  | cons c cs ih =>
    have hc := h c (List.mem_cons_self c cs)
    have iht := fun k => ih k (fun x hx => h x (List.mem_cons_of_mem _ hx))
    cases k with
    | zero => simp [commaGroupAux, List.filter_cons, hc, iht 2]
    | succ k => simp [commaGroupAux, List.filter_cons, hc, iht k]

lemma filter_commaGroup (ds : List Char) (h : ∀ c ∈ ds, (c == ',') = false) :
    (commaGroup ds).filter (fun c => !(c == ',')) = ds := by
  unfold commaGroup
  rw [List.filter_reverse,
    filter_commaGroupAux 3 ds.reverse (fun c hc => h c (List.mem_reverse.mp hc)),
    List.reverse_reverse]

lemma parseFloat_neg (rest : List Char) :
    parseFloat ('-' :: rest) = (parseUnsigned rest).map (fun q => -q) := by
  simp [parseFloat]

lemma parseFloat_plus (rest : List Char) :
    parseFloat ('+' :: rest) = parseUnsigned rest := by
  simp [parseFloat]

lemma parseFloat_digit (c : Char) (rest : List Char) (h : c.isDigit = true) :
    parseFloat (c :: rest) = parseUnsigned (c :: rest) := by
  have h1 : c ≠ '-' := by rintro rfl; simp at h
  have h2 : c ≠ '+' := by rintro rfl; simp at h
  simp [parseFloat, h1, h2]

lemma rnd2_nonneg {q : ℚ} (hq : 0 ≤ q) : 0 ≤ rnd2 q := by
  unfold rnd2
  rw [round_eq]
  exact Int.le_floor.mpr (by push_cast; linarith)

lemma rnd2_nonpos {q : ℚ} (hq : q < 0) : rnd2 q ≤ 0 := by
  have h2 : ⌊(100 * q + 1 / 2 : ℚ)⌋ < 1 := Int.floor_lt.mpr (by push_cast; linarith)
  unfold rnd2
  rw [round_eq]
  omega

lemma cast_natAbs_of_nonneg {r : ℤ} (h : 0 ≤ r) : ((r.natAbs : ℚ)) = (r : ℚ) := by
  rw [Int.cast_natAbs, Int.cast_abs]
  exact abs_of_nonneg (by exact_mod_cast h)

lemma cast_natAbs_of_nonpos {r : ℤ} (h : r ≤ 0) : ((r.natAbs : ℚ)) = -(r : ℚ) := by
  rw [Int.cast_natAbs, Int.cast_abs]
  exact abs_of_nonpos (by exact_mod_cast h)

lemma div_mod_cast_q (n : ℕ) :
    ((n / 100 : ℕ) : ℚ) + ((n % 100 : ℕ) : ℚ) / 100 = (n : ℚ) / 100 := by
  have h := Nat.div_add_mod n 100
  have h2 : (100 : ℚ) * ((n / 100 : ℕ) : ℚ) + ((n % 100 : ℕ) : ℚ) = (n : ℚ) := by
    exact_mod_cast congrArg (fun k : ℕ => (k : ℚ)) h
  field_simp
  linarith

lemma rnd2_close (q : ℚ) : |((rnd2 q : ℚ)) / 100 - q| ≤ 1 / 200 := by
  have h := abs_sub_round (100 * q)
  rw [abs_sub_comm] at h
  have he : ((rnd2 q : ℚ)) / 100 - q = ((rnd2 q : ℚ) - 100 * q) / 100 := by ring
  rw [he, abs_div, abs_of_pos (show (0:ℚ) < 100 by norm_num)]
  unfold rnd2
  linarith

lemma natStr_chars (m : ℕ) :
    ∀ c ∈ natStr m, (c == ',') = false ∧ c.isWhitespace = false := by
  intro c hc
  rcases natStr_mem hc with ⟨d, hd, rfl⟩
  exact ⟨(digitChar_facts hd).2.1, (digitChar_facts hd).2.2.1⟩

lemma twoDigit_chars {f : ℕ} (hf : f < 100) :
    ∀ c ∈ twoDigitStr f, (c == ',') = false ∧ c.isWhitespace = false := by
  intro c hc
  rcases twoDigitStr_mem hf hc with ⟨d, hd, rfl⟩
  exact ⟨(digitChar_facts hd).2.1, (digitChar_facts hd).2.2.1⟩

lemma money_filter (q : ℚ) :
    List.filter (fun c => !(c == ',')) (moneyChars q) =
      (if q < 0 then ['-'] else []) ++
        (natStr ((rnd2 q).natAbs / 100) ++ '.' :: twoDigitStr ((rnd2 q).natAbs % 100)) := by
  have hF : (rnd2 q).natAbs % 100 < 100 := Nat.mod_lt _ (by norm_num)
  have h2 : List.filter (fun c => !(c == ',')) (twoDigitStr ((rnd2 q).natAbs % 100)) =
      twoDigitStr ((rnd2 q).natAbs % 100) := by
    apply List.filter_eq_self.mpr
    intro a ha
    rw [(twoDigit_chars hF a ha).1]
    rfl
  unfold moneyChars
  rw [List.filter_append, List.filter_append, List.filter_cons]
  rw [filter_commaGroup _ (fun c hc => (natStr_chars _ c hc).1)]
  rw [h2]
  by_cases hq : q < 0 <;> simp [hq]

lemma money_no_ws (q : ℚ) :
    ∀ c ∈ (if q < 0 then ['-'] else []) ++
      (natStr ((rnd2 q).natAbs / 100) ++ '.' :: twoDigitStr ((rnd2 q).natAbs % 100)),
      c.isWhitespace = false := by
  have hF : (rnd2 q).natAbs % 100 < 100 := Nat.mod_lt _ (by norm_num)
  intro c hc
  rcases List.mem_append.mp hc with hc | hc
  · split at hc
    · simp at hc
      subst hc
      decide
    · simp at hc
  · rcases List.mem_append.mp hc with hc | hc
    · exact (natStr_chars _ c hc).2
    · rcases List.mem_cons.mp hc with rfl | hc
      · decide
      · exact (twoDigit_chars hF c hc).2

lemma safe_float_format_money (q : ℚ) :
    safe_float (some (format_money (some q))) = some ((rnd2 q : ℚ) / 100) := by
  have hF : (rnd2 q).natAbs % 100 < 100 := Nat.mod_lt _ (by norm_num)
  have hne : format_money (some q) ≠ "" := by
    intro h
    have hd := congrArg String.data h
    simp [format_money, moneyChars] at hd
  rw [show safe_float (some (format_money (some q))) =
      if format_money (some q) = "" then none
      else parseFloat (pyStripList (stripCommas (format_money (some q))).data) from rfl,
    if_neg hne]
  rw [show (stripCommas (format_money (some q))).data =
      List.filter (fun c => !(c == ',')) (moneyChars q) from rfl]
  rw [money_filter q, pyStripList_all_false (money_no_ws q)]
  by_cases hq : q < 0
  · rw [if_pos hq, List.singleton_append, parseFloat_neg, parseUnsigned_render _ _ hF]
    have hcast : (((rnd2 q).natAbs : ℚ)) = -(rnd2 q : ℚ) :=
      cast_natAbs_of_nonpos (rnd2_nonpos hq)
    rw [Option.map_some']
    congr 1
    rw [div_mod_cast_q, hcast]
    ring
  · rw [if_neg hq, List.nil_append]
    rcases hns : natStr ((rnd2 q).natAbs / 100) with _ | ⟨c, t⟩
    · exact absurd hns (natStr_ne_nil _)
    · have hcd : c.isDigit = true :=
        natStr_all_digit _ c (by rw [hns]; exact List.mem_cons_self c t)
      rw [List.cons_append, parseFloat_digit c _ hcd, ← List.cons_append, ← hns,
        parseUnsigned_render _ _ hF]
      have hcast : (((rnd2 q).natAbs : ℚ)) = (rnd2 q : ℚ) :=
        cast_natAbs_of_nonneg (rnd2_nonneg (not_lt.mp hq))
      congr 1
      rw [div_mod_cast_q, hcast]

lemma pct_chars_eq (q : ℚ) :
    (format_pct (some q)).data =
      (if 0 ≤ q then ['+'] else []) ++ fixed2Chars q ++ ['%'] := rfl

lemma fixed2_chars {q : ℚ} :
    ∀ c ∈ fixed2Chars q, (c == ',') = false ∧ c.isWhitespace = false := by
  have hF : (rnd2 q).natAbs % 100 < 100 := Nat.mod_lt _ (by norm_num)
  intro c hc
  unfold fixed2Chars at hc
  rcases List.mem_append.mp hc with hc | hc
  · rcases List.mem_append.mp hc with hc | hc
    · split at hc
      · simp at hc
        subst hc
        exact ⟨rfl, rfl⟩
      · simp at hc
    · exact natStr_chars _ c hc
  · rcases List.mem_cons.mp hc with rfl | hc
    · exact ⟨rfl, rfl⟩
    · exact twoDigit_chars hF c hc

lemma safe_float_format_pct (q : ℚ) :
    safe_float (some (format_pct (some q))) = none := by
  have hne : format_pct (some q) ≠ "" := by
    intro h
    have hd := congrArg String.data h
    rw [pct_chars_eq] at hd
    simp at hd
  rw [show safe_float (some (format_pct (some q))) =
      if format_pct (some q) = "" then none
      else parseFloat (pyStripList (stripCommas (format_pct (some q))).data) from rfl,
    if_neg hne]
  have hfil : (stripCommas (format_pct (some q))).data =
      (if 0 ≤ q then ['+'] else []) ++ fixed2Chars q ++ ['%'] := by
    rw [show (stripCommas (format_pct (some q))).data =
        List.filter (fun c => !(c == ',')) ((format_pct (some q)).data) from rfl, pct_chars_eq]
    apply List.filter_eq_self.mpr
    intro a ha
    rcases List.mem_append.mp ha with ha | ha
    · rcases List.mem_append.mp ha with ha | ha
      · split at ha
        · simp at ha
          subst ha
          rfl
        · simp at ha
      · rw [(fixed2_chars a ha).1]
        rfl
    · simp at ha
      subst ha
      rfl
  rw [hfil]
  have hnws : ∀ c ∈ (if 0 ≤ q then ['+'] else []) ++ fixed2Chars q ++ ['%'],
      c.isWhitespace = false := by
    intro c hc
    rcases List.mem_append.mp hc with hc | hc
    · rcases List.mem_append.mp hc with hc | hc
      · split at hc
        · simp at hc
          subst hc
          decide
        · simp at hc
      · exact (fixed2_chars c hc).2
    · simp at hc
      subst hc
      decide
  rw [pyStripList_all_false hnws]
  by_cases hq : 0 ≤ q
  · have hq2 : ¬q < 0 := not_lt.mpr hq
    rw [if_pos hq]
    unfold fixed2Chars
    rw [if_neg hq2, List.nil_append, List.append_assoc, List.singleton_append,
      parseFloat_plus, List.append_assoc, List.cons_append]
    exact parseUnsigned_pct_tail _ _
  · have hq2 : q < 0 := not_le.mp hq
    rw [if_neg hq]
    unfold fixed2Chars
    rw [if_pos hq2, List.nil_append, List.append_assoc, List.append_assoc,
      List.singleton_append, parseFloat_neg, List.cons_append,
      parseUnsigned_pct_tail _ _]
    rfl

/-- C6 (amended): re-parsing a formatted defined value with `safe_float`
recovers exactly the displayed 2-decimal rounding for `format_money` (which
is within half a hundredth of the original), but for `format_pct` the
trailing `%` makes the re-parse fail to the NaN sentinel, so the round-trip
property holds for `format_money` only. -/
theorem format_roundtrip (q : ℚ) :
    safe_float (some (format_money (some q))) = some ((rnd2 q : ℚ) / 100) ∧
    |((rnd2 q : ℚ) / 100) - q| ≤ 1 / 200 ∧
    safe_float (some (format_pct (some q))) = none :=
  ⟨safe_float_format_money q, rnd2_close q, safe_float_format_pct q⟩

/-- C6 counterexample: the defined value `0` displays via `format_pct` as
`"+0.00%"`, which `safe_float` cannot re-parse — it yields the NaN
sentinel, not the displayed value `0`. -/
theorem format_pct_roundtrip_cex :
    format_pct (some 0) = "+0.00%" ∧
    safe_float (some (format_pct (some 0))) = none ∧
    (none : PFloat) ≠ some 0 := by
  refine ⟨?_, safe_float_format_pct 0, by simp⟩
  with_unfolding_all rfl
